import Mathlib

/-!
Verification development for the Grazioso Rescue Finder core
(`data_helpers.py` and `rescue_filters.py`).

Modelling conventions for the shallow embedding:
* A Python `str` is a sequence of Unicode code points, modelled as `List Nat`.
  `pystr` converts a Lean string literal to that representation.
* A Python `float` is modelled as an exact fraction `Frac` (numerator/denominator);
  the program only builds floats from decimal literals and multiplies/divides
  them by decimal constants, so every value that occurs is an exact decimal.
  Comparisons are by cross multiplication (denominators are always positive).
* A pandas cell is a `Value` (string, number, boolean, or null/NaN).
* A `DataFrame` is a column-name list plus a list of positional rows.
* Exceptions (`ValueError`) are modelled with `Except`, the error payload being
  the message string.
-/

/-! ### Python string primitives -/

/-- Code points of a Lean string literal, the `List Nat` model of a Python `str`. -/
def pystr (s : String) : List Nat := s.data.map Char.toNat

/-- The whitespace code points stripped by Python `str.strip` and matched by
the regex class `\s` (ASCII range; the shelter data contains no exotic
Unicode whitespace). -/
def pySpace (c : Nat) : Bool :=
  c == 32 || c == 9 || c == 10 || c == 13 || c == 11 || c == 12

/-- Python `str.lower` on a single code point (ASCII letters; the program's
vocabulary is ASCII). -/
def pyLowerChar (c : Nat) : Nat :=
  if 65 ≤ c ∧ c ≤ 90 then c + 32 else c

/-- Python `str.lower`. -/
def pyLower (s : List Nat) : List Nat := s.map pyLowerChar

/-- Drop leading whitespace (left half of `str.strip`). -/
def stripLeft (s : List Nat) : List Nat := s.dropWhile pySpace

/-- Drop trailing whitespace (right half of `str.strip`). -/
def stripRight (s : List Nat) : List Nat := (s.reverse.dropWhile pySpace).reverse

/-- Python `str.strip`. -/
def pyStrip (s : List Nat) : List Nat := stripRight (stripLeft s)

/-- The combination `s.strip().lower()` used throughout the source. -/
def canon (s : List Nat) : List Nat := pyLower (pyStrip s)

/-- Boolean test that `pre` is a prefix of `s` (Python `str.startswith`,
also the anchored part of `re.match`). -/
def isPreB : List Nat → List Nat → Bool
  | [], _ => true
  | _ :: _, [] => false
  | a :: as, b :: bs => a == b && isPreB as bs

/-- Boolean substring test: Python `needle in hay`. -/
def containsB (hay needle : List Nat) : Bool :=
  match hay with
  | [] => needle.isEmpty
  | _ :: t => isPreB needle hay || containsB t needle

/-- Python string `<=` (lexicographic comparison of code points). -/
def lexLeB : List Nat → List Nat → Bool
  | [], _ => true
  | _ :: _, [] => false
  | a :: as, b :: bs => if a < b then true else if b < a then false else lexLeB as bs

/-! ### Exact fractions standing in for Python floats -/

/-- An exact fraction; every float the program manipulates is an exact
decimal, so this representation is lossless. Constructions keep the
denominator positive. -/
structure Frac where
  num : Int
  den : Nat
deriving DecidableEq

/-- Multiplication of fractions. -/
def fracMul (a b : Frac) : Frac := ⟨a.num * b.num, a.den * b.den⟩

/-- Comparison `a ≤ b` by cross multiplication (valid for positive denominators). -/
def fracLeB (a b : Frac) : Bool := a.num * (b.den : Int) ≤ b.num * (a.den : Int)

/-- Strict comparison `a < b` by cross multiplication. -/
def fracLtB (a b : Frac) : Bool := a.num * (b.den : Int) < b.num * (a.den : Int)

/-! ### Pandas cells -/

/-- A pandas cell: a string, an (exact) number, a boolean, or null/NaN.
Python `None` and pandas `NaN` are both `vNull`: the source only ever
produces or tests them in positions where they behave alike (comparisons
against `NaN` are false, `None` fails `isinstance(str)` and `float()`). -/
inductive Value where
  | vStr : List Nat → Value
  | vNum : Frac → Value
  | vBool : Bool → Value
  | vNull : Value
deriving DecidableEq

/-! ### Basic facts about the string primitives -/

theorem isPreB_iff (pre s : List Nat) : isPreB pre s = true ↔ pre <+: s := by
  induction pre generalizing s with
  | nil => simp [isPreB]
  | cons a as ih =>
    cases s with
    | nil => simp [isPreB]
    | cons b bs =>
      simp only [isPreB, Bool.and_eq_true, beq_iff_eq, ih, List.cons_prefix_cons]

theorem containsB_iff (hay needle : List Nat) :
    containsB hay needle = true ↔ needle <:+: hay := by
  induction hay with
  | nil => simp [containsB, List.isEmpty_iff, List.infix_nil]
  | cons a t ih =>
    simp only [containsB, Bool.or_eq_true, isPreB_iff, ih, List.infix_cons_iff]

theorem pySpace_pyLowerChar (c : Nat) : pySpace (pyLowerChar c) = pySpace c := by
  unfold pyLowerChar
  split
  · next h =>
    have h1 : pySpace (c + 32) = false := by
      simp only [pySpace, Bool.or_eq_false_iff, beq_eq_false_iff_ne, ne_eq]
      omega
    have h2 : pySpace c = false := by
      simp only [pySpace, Bool.or_eq_false_iff, beq_eq_false_iff_ne, ne_eq]
      omega
    rw [h1, h2]
  · rfl

theorem pyLowerChar_idem (c : Nat) : pyLowerChar (pyLowerChar c) = pyLowerChar c := by
  unfold pyLowerChar
  split
  · next h =>
    have : ¬ (65 ≤ c + 32 ∧ c + 32 ≤ 90) := by omega
    simp only [pyLowerChar, if_neg this]
  · rfl

theorem pyLower_idem (s : List Nat) : pyLower (pyLower s) = pyLower s := by
  unfold pyLower
  rw [List.map_map]
  exact List.map_congr_left fun c _ => pyLowerChar_idem c

/-- A string with no leading and no trailing whitespace. -/
def CleanStr (s : List Nat) : Prop :=
  (∀ h, s.head? = some h → pySpace h = false) ∧
  (∀ h, s.getLast? = some h → pySpace h = false)

theorem stripLeft_head (s : List Nat) :
    ∀ h, (stripLeft s).head? = some h → pySpace h = false := by
  intro h hh
  have := List.head?_dropWhile_not pySpace s
  unfold stripLeft at hh
  rw [hh] at this
  exact this

theorem stripLeft_eq_self (s : List Nat)
    (hs : ∀ h, s.head? = some h → pySpace h = false) : stripLeft s = s := by
  cases s with
  | nil => rfl
  | cons a t =>
    have := hs a rfl
    simp [stripLeft, List.dropWhile_cons, this]

theorem stripRight_eq_self (s : List Nat)
    (hs : ∀ h, s.getLast? = some h → pySpace h = false) : stripRight s = s := by
  unfold stripRight
  have hrev : ∀ h, s.reverse.head? = some h → pySpace h = false := by
    intro h hh
    rw [List.head?_reverse] at hh
    exact hs h hh
  have : s.reverse.dropWhile pySpace = s.reverse := stripLeft_eq_self s.reverse hrev
  rw [this, List.reverse_reverse]

theorem stripRight_isPre (s : List Nat) : stripRight s <+: s := by
  have h1 : s.reverse.dropWhile pySpace <:+ s.reverse := List.dropWhile_suffix pySpace
  have h2 : (stripRight s).reverse <:+ s.reverse := by
    unfold stripRight
    rw [List.reverse_reverse]
    exact h1
  exact List.reverse_suffix.mp h2

theorem stripRight_getLast (s : List Nat) :
    ∀ h, (stripRight s).getLast? = some h → pySpace h = false := by
  intro h hh
  unfold stripRight at hh
  rw [List.getLast?_reverse] at hh
  have := List.head?_dropWhile_not pySpace s.reverse
  rw [hh] at this
  exact this

theorem stripRight_head (s : List Nat)
    (hs : ∀ h, s.head? = some h → pySpace h = false) :
    ∀ h, (stripRight s).head? = some h → pySpace h = false := by
  intro h hh
  obtain ⟨t, ht⟩ := stripRight_isPre s
  cases hr : stripRight s with
  | nil => rw [hr] at hh; exact absurd hh (by simp)
  | cons a u =>
    rw [hr] at hh
    simp only [List.head?_cons, Option.some.injEq] at hh
    subst hh
    rw [hr] at ht
    apply hs
    rw [← ht]
    rfl

theorem pyStrip_clean (s : List Nat) : CleanStr (pyStrip s) := by
  constructor
  · exact stripRight_head (stripLeft s) (stripLeft_head s)
  · exact stripRight_getLast (stripLeft s)

theorem clean_pyStrip_eq (s : List Nat) (h : CleanStr s) : pyStrip s = s := by
  unfold pyStrip
  rw [stripLeft_eq_self s h.1, stripRight_eq_self s h.2]

theorem clean_pyLower (s : List Nat) (h : CleanStr s) : CleanStr (pyLower s) := by
  constructor
  · intro c hc
    unfold pyLower at hc
    rw [List.head?_map] at hc
    cases hh : s.head? with
    | none => rw [hh] at hc; exact absurd hc (by simp)
    | some c0 =>
      rw [hh] at hc
      simp at hc
      subst hc
      rw [pySpace_pyLowerChar]
      exact h.1 c0 hh
  · intro c hc
    unfold pyLower at hc
    rw [List.getLast?_map] at hc
    cases hh : s.getLast? with
    | none => rw [hh] at hc; exact absurd hc (by simp)
    | some c0 =>
      rw [hh] at hc
      simp at hc
      subst hc
      rw [pySpace_pyLowerChar]
      exact h.2 c0 hh

theorem canon_idem (s : List Nat) : canon (canon s) = canon s := by
  unfold canon
  rw [clean_pyStrip_eq _ (clean_pyLower _ (pyStrip_clean s)), pyLower_idem]

/-! ### Field parsers (`data_helpers.py`) -/

/-- Decimal digit test (regex `\d`, ASCII). -/
def isDigit (c : Nat) : Bool := 48 ≤ c && c ≤ 57

/-- Numeric value of a digit string (most significant first), as Python
`float`/`int` of a digit run reads it. -/
def digitsVal (ds : List Nat) : Nat := ds.foldl (fun acc d => acc * 10 + (d - 48)) 0

/-- An age unit recognized by `parse_age_to_weeks`. -/
inductive AgeUnit where
  | year | month | week | day
deriving DecidableEq

/-- Matches one of the alternatives `year|month|week|day` at the start of `s`
(the alternation of the age regex; the trailing `s?` and any text after the
match are irrelevant to the captured groups). -/
def unitAlt (s : List Nat) : Option AgeUnit :=
  if isPreB (pystr "year") s then some .year
  else if isPreB (pystr "month") s then some .month
  else if isPreB (pystr "week") s then some .week
  else if isPreB (pystr "day") s then some .day
  else none

/-- Model of `re.match(r'(\d+(?:\.\d+)?)\s*(year|month|week|day)s?', s)`:
an anchored prefix match returning group 1 as an exact fraction and group 2
as the unit. The regex is deterministic here: `\d+` must be the maximal digit
run (a shorter run would leave a digit, which can start neither `\s*` nor a
unit word), the optional fraction is taken exactly when a `.` followed by a
digit is present, and the alternation branches start with distinct letters. -/
def ageRegexMatch (s : List Nat) : Option (Frac × AgeUnit) :=
  let ds := s.takeWhile isDigit
  let rest := s.drop ds.length
  if ds.isEmpty then none
  else
    let valRest : Frac × List Nat :=
      match rest with
      | 46 :: r =>
        let fs := r.takeWhile isDigit
        if fs.isEmpty then (⟨(digitsVal ds : Int), 1⟩, rest)
        else (⟨(digitsVal (ds ++ fs) : Int), 10 ^ fs.length⟩, r.drop fs.length)
      | _ => (⟨(digitsVal ds : Int), 1⟩, rest)
    match unitAlt (valRest.2.dropWhile pySpace) with
    | none => none
    | some u => some (valRest.1, u)

/-- The fixed conversion constant for each unit: 52.143 weeks per year,
4.345 weeks per month, 1 per week; days divide by 7 (see
`parse_age_to_weeks` below, which divides rather than multiplying). -/
def unitFactor : AgeUnit → Frac
  | .year => ⟨52143, 1000⟩
  | .month => ⟨4345, 1000⟩
  | .week => ⟨1, 1⟩
  | .day => ⟨1, 1⟩

/-- `data_helpers.parse_age_to_weeks`: parse an age string to weeks.
Returns `none` for null/non-string input, for an empty (stripped) string,
when the regex does not match, and when the parsed value is `<= 0`;
otherwise converts by unit (`value / 7.0` for days is modelled by
multiplying the denominator). -/
def parse_age_to_weeks (v : Value) : Option Frac :=
  match v with
  | .vStr s0 =>
    let s := canon s0
    if s.isEmpty then none
    else
      match ageRegexMatch s with
      | none => none
      | some (val, u) =>
        if fracLeB val ⟨0, 1⟩ then none
        else
          match u with
          | .year => some (fracMul val ⟨52143, 1000⟩)
          | .month => some (fracMul val ⟨4345, 1000⟩)
          | .week => some val
          | .day => some ⟨val.num, val.den * 7⟩
  | _ => none

/-- `data_helpers.normalize_sex_intact`: split `sex_upon_outcome` into
`(sex, intact_status)`. -/
def normalize_sex_intact (v : Value) : List Nat × List Nat :=
  match v with
  | .vStr s0 =>
    let s := canon s0
    if s.isEmpty || s = pystr "unknown" then (pystr "Unknown", pystr "Unknown")
    else
      let sex :=
        if containsB s (pystr "male") && !containsB s (pystr "female") then pystr "Male"
        else if containsB s (pystr "female") then pystr "Female"
        else pystr "Unknown"
      let intact :=
        if containsB s (pystr "neutered") then pystr "Neutered"
        else if containsB s (pystr "spayed") then pystr "Spayed"
        else if containsB s (pystr "intact") then pystr "Intact"
        else pystr "Unknown"
      (sex, intact)
  | _ => (pystr "Unknown", pystr "Unknown")

/-- Python `float(x)` applied to a decimal string: optional sign, then digits
with an optional fractional part (`"1."` and `".5"` are accepted), after
stripping surrounding whitespace; anything else fails. Scientific notation
and the words `inf`/`nan` are not modelled: on the coordinate columns this
program feeds to `float`, those inputs are rejected by the model while in
Python they parse and are then rejected by the NaN/range checks, except for
tiny-exponent forms that never occur in the claims under proof. -/
def parseDecimal (s : List Nat) : Option Frac :=
  let ds := s.takeWhile isDigit
  let rest := s.drop ds.length
  match rest with
  | [] => if ds.isEmpty then none else some ⟨(digitsVal ds : Int), 1⟩
  | 46 :: r =>
    let fs := r.takeWhile isDigit
    if ¬ (r.drop fs.length).isEmpty then none
    else if ds.isEmpty && fs.isEmpty then none
    else some ⟨(digitsVal (ds ++ fs) : Int), 10 ^ fs.length⟩
  | _ => none

/-- Python `float(v)` on a cell: numbers coerce to themselves, booleans to
0/1, `None`/NaN-null fails (`TypeError`), strings parse as decimals. -/
def pyFloat (v : Value) : Option Frac :=
  match v with
  | .vNum q => some q
  | .vBool b => some ⟨if b then 1 else 0, 1⟩
  | .vNull => none
  | .vStr s =>
    match parseDecimal (pyStrip s) with
    | some f => some f
    | none =>
      match pyStrip s with
      | 43 :: r => parseDecimal r
      | 45 :: r => (parseDecimal r).map (fun f => ⟨-f.num, f.den⟩)
      | _ => none

/-- `data_helpers.validate_coordinates`: both coordinates must coerce to
float and lie in `[-90, 90]` and `[-180, 180]` respectively. The source's
NaN test cannot fire in the exact-fraction model (no parsed decimal is NaN). -/
def validate_coordinates (location_lat location_long : Value) : Bool :=
  match pyFloat location_lat, pyFloat location_long with
  | some la, some lo =>
    if fracLtB la ⟨-90, 1⟩ || fracLtB ⟨90, 1⟩ la then false
    else !(fracLtB lo ⟨-180, 1⟩ || fracLtB ⟨180, 1⟩ lo)
  | _, _ => false

/-! ### Breed classifier (`data_helpers.py`) -/

def water_breeds : List (List Nat) :=
  [pystr "labrador retriever", pystr "chesapeake bay retriever", pystr "newfoundland"]

def mountain_breeds : List (List Nat) :=
  [pystr "german shepherd", pystr "alaskan malamute", pystr "old english sheepdog",
   pystr "siberian husky", pystr "rottweiler"]

def disaster_breeds : List (List Nat) :=
  [pystr "doberman pinscher", pystr "german shepherd", pystr "golden retriever",
   pystr "bloodhound", pystr "rottweiler"]

/-- `data_helpers.breed_matches_rescue_type`: substring containment of any
target breed in the (stripped, lowered) breed string, with the breed set
selected by the (stripped, lowered) rescue type. -/
def breed_matches_rescue_type (breed : Value) (rescue_type : List Nat) : Bool :=
  match breed with
  | .vStr b0 =>
    let b := canon b0
    if b.isEmpty then false
    else
      let rt := canon rescue_type
      if rt = pystr "water" then water_breeds.any (fun t => containsB b t)
      else if rt = pystr "mountain" then mountain_breeds.any (fun t => containsB b t)
      else if rt = pystr "disaster" ∨ rt = pystr "tracking" then
        disaster_breeds.any (fun t => containsB b t)
      else false
  | _ => false

/-! ### Category bucketer (`data_helpers.py`) -/

/-- The sort key of `bucket_categories`: Python `sorted(counts.items(),
key=lambda x: (-x[1], x[0]))`, i.e. descending count, ties by ascending
lexicographic value. -/
def rankLeB (x y : List Nat × Nat) : Bool :=
  if y.2 < x.2 then true
  else if x.2 < y.2 then false
  else lexLeB x.1 y.1

/-- The sort key as a relation, for `List.insertionSort`. -/
def rankRel (x y : List Nat × Nat) : Prop := rankLeB x y = true

instance : DecidableRel rankRel := fun x y => by unfold rankRel; infer_instance

/-- Insertion (with overwrite) into an insertion-ordered association list:
the model of `d[k] = v` on a Python `dict` (and of `Counter` updates). -/
def dictUpsert {β : Type} (m : List (List Nat × β)) (k : List Nat)
    (g : β → β) (init : β) : List (List Nat × β) :=
  if m.any (fun p => p.1 == k) then
    m.map (fun p => if p.1 == k then (p.1, g p.2) else p)
  else m ++ [(k, init)]

/-- Python `collections.Counter(values)` as an insertion-ordered association
list from distinct values to occurrence counts. -/
def counterOf (values : List (List Nat)) : List (List Nat × Nat) :=
  values.foldl (fun m v => dictUpsert m v (· + 1) 1) []

/-- Lookup in an association list (`d[k]` / `k in d`). -/
def dictGet {β : Type} (m : List (List Nat × β)) (k : List Nat) : Option β :=
  match m.find? (fun p => p.1 == k) with
  | some p => some p.2
  | none => none

/-- The keys of an association list, in insertion order. -/
def dictKeys {β : Type} (m : List (List Nat × β)) : List (List Nat) := m.map Prod.fst

/-- `data_helpers.bucket_categories`: keep the `top_n` ranked categories
self-mapped, map every other value to `"Other"`. -/
def bucket_categories (values : List (List Nat)) (top_n : Int) :
    List (List Nat × List Nat) :=
  if values.isEmpty ∨ top_n ≤ 0 then []
  else
    let top_categories := (List.insertionSort rankRel (counterOf values)).take top_n.toNat
    let top_names := top_categories.map Prod.fst
    values.foldl
      (fun m v =>
        let bv := if v ∈ top_names then v else pystr "Other"
        dictUpsert m v (fun _ => bv) bv)
      []

/-! ### DataFrames and the record normalizer (`data_helpers.py`) -/

/-- An in-memory tabular batch: named columns and positionally indexed rows. -/
structure DataFrame where
  cols : List (List Nat)
  rows : List (List Value)
deriving DecidableEq

/-- Index of a column name, if present. -/
def colIdx (df : DataFrame) (c : List Nat) : Option Nat :=
  df.cols.findIdx? (fun c2 => c2 == c)

/-- The cell of `row` in column `c` of `df` (claims only read columns that
are present; absent columns read as null rather than modelling the pandas
`KeyError`). -/
def getCell (df : DataFrame) (row : List Value) (c : List Nat) : Value :=
  match colIdx df c with
  | some i => (row.get? i).getD .vNull
  | none => .vNull

/-- Pandas column assignment `df[c] = vals`: overwrite in place if the column
exists, else append it on the right. -/
def setCol (df : DataFrame) (c : List Nat) (vals : List Value) : DataFrame :=
  match colIdx df c with
  | some i => ⟨df.cols, (df.rows.zip vals).map (fun p => p.1.set i p.2)⟩
  | none => ⟨df.cols ++ [c], (df.rows.zip vals).map (fun p => p.1 ++ [p.2])⟩

def required_columns : List (List Nat) :=
  [pystr "age_upon_outcome", pystr "sex_upon_outcome",
   pystr "location_lat", pystr "location_long"]

/-- Python `", ".join`. -/
def joinCommaSpace : List (List Nat) → List Nat
  | [] => []
  | [x] => x
  | x :: xs => x ++ pystr ", " ++ joinCommaSpace xs

/-- The parsed age as a cell: `None` from the parser becomes a null (NaN in
the pandas float column). -/
def ageVal (df : DataFrame) (r : List Value) : Value :=
  match parse_age_to_weeks (getCell df r (pystr "age_upon_outcome")) with
  | some q => .vNum q
  | none => .vNull

/-- `data_helpers.normalize_dataframe`: check the required columns (raising
`ValueError` naming every missing one), then non-destructively add the
`age_weeks`, `sex`, `intact_status` and `valid_coords` columns computed
per-row by the field parsers. The source computes the sex/intact tuple once
and assigns its two projections; the two `setCol`s here read the same
untouched `sex_upon_outcome` column. -/
def normalize_dataframe (df : DataFrame) : Except (List Nat) DataFrame :=
  let missing := required_columns.filter (fun c => !(df.cols.contains c))
  if missing.isEmpty then
    let d1 := setCol df (pystr "age_weeks") (df.rows.map (fun r => ageVal df r))
    let d2 := setCol d1 (pystr "sex")
      (d1.rows.map (fun r =>
        .vStr (normalize_sex_intact (getCell d1 r (pystr "sex_upon_outcome"))).1))
    let d3 := setCol d2 (pystr "intact_status")
      (d2.rows.map (fun r =>
        .vStr (normalize_sex_intact (getCell d2 r (pystr "sex_upon_outcome"))).2))
    let d4 := setCol d3 (pystr "valid_coords")
      (d3.rows.map (fun r =>
        .vBool (validate_coordinates (getCell d3 r (pystr "location_lat"))
          (getCell d3 r (pystr "location_long")))))
    .ok d4
  else .error (pystr "Missing required columns: " ++ joinCommaSpace missing)

instance exceptDecEq {ε α : Type} [DecidableEq ε] [DecidableEq α] :
    DecidableEq (Except ε α) := fun x y =>
  match x, y with
  | .ok a, .ok b =>
    if h : a = b then isTrue (by rw [h]) else isFalse (by intro hh; cases hh; exact h rfl)
  | .error a, .error b =>
    if h : a = b then isTrue (by rw [h]) else isFalse (by intro hh; cases hh; exact h rfl)
  | .ok _, .error _ => isFalse (by intro hh; cases hh)
  | .error _, .ok _ => isFalse (by intro hh; cases hh)

/-! ### Rescue filter engine (`rescue_filters.py`) -/

/-- Pandas `series >= q` on one cell: false for null/NaN and non-numbers. -/
def valGeB (v : Value) (q : Frac) : Bool :=
  match v with
  | .vNum a => fracLeB q a
  | _ => false

/-- Pandas `series <= q` on one cell: false for null/NaN and non-numbers. -/
def valLeB (v : Value) (q : Frac) : Bool :=
  match v with
  | .vNum a => fracLeB a q
  | _ => false

/-- Pandas `series == "s"` on one cell. -/
def valEqStrB (v : Value) (s : List Nat) : Bool :=
  match v with
  | .vStr t => t == s
  | _ => false

/-- Row predicate of `rescue_filters.water_rescue_filter`. -/
def water_pred (df : DataFrame) (r : List Value) : Bool :=
  breed_matches_rescue_type (getCell df r (pystr "breed")) (pystr "water")
    && valEqStrB (getCell df r (pystr "sex")) (pystr "Female")
    && valEqStrB (getCell df r (pystr "intact_status")) (pystr "Intact")
    && valGeB (getCell df r (pystr "age_weeks")) ⟨26, 1⟩
    && valLeB (getCell df r (pystr "age_weeks")) ⟨156, 1⟩

/-- Row predicate of `rescue_filters.mountain_rescue_filter`. -/
def mountain_pred (df : DataFrame) (r : List Value) : Bool :=
  breed_matches_rescue_type (getCell df r (pystr "breed")) (pystr "mountain")
    && valEqStrB (getCell df r (pystr "sex")) (pystr "Male")
    && valEqStrB (getCell df r (pystr "intact_status")) (pystr "Intact")
    && valGeB (getCell df r (pystr "age_weeks")) ⟨26, 1⟩
    && valLeB (getCell df r (pystr "age_weeks")) ⟨156, 1⟩

/-- Row predicate of `rescue_filters.disaster_rescue_filter`. -/
def disaster_pred (df : DataFrame) (r : List Value) : Bool :=
  breed_matches_rescue_type (getCell df r (pystr "breed")) (pystr "disaster")
    && valEqStrB (getCell df r (pystr "sex")) (pystr "Male")
    && valEqStrB (getCell df r (pystr "intact_status")) (pystr "Intact")
    && valGeB (getCell df r (pystr "age_weeks")) ⟨20, 1⟩
    && valLeB (getCell df r (pystr "age_weeks")) ⟨300, 1⟩

def water_rescue_filter (df : DataFrame) : DataFrame :=
  ⟨df.cols, df.rows.filter (water_pred df)⟩

def mountain_rescue_filter (df : DataFrame) : DataFrame :=
  ⟨df.cols, df.rows.filter (mountain_pred df)⟩

def disaster_rescue_filter (df : DataFrame) : DataFrame :=
  ⟨df.cols, df.rows.filter (disaster_pred df)⟩

def reset_filter (df : DataFrame) : DataFrame := df

/-- The `ValueError` message of `apply_rescue_filter` (code point 39 is the
single quote around the offending value). -/
def invalidFilterMsg (ft : List Nat) : List Nat :=
  pystr "Invalid filter type: " ++ [39] ++ ft ++ [39] ++
    pystr ". Valid options: water, mountain, disaster, tracking, reset"

/-- `rescue_filters.apply_rescue_filter`: strip and lower the filter name,
dispatch (wilderness aliases mountain, tracking aliases disaster, the empty
string aliases reset), and raise `ValueError` on anything else. -/
def apply_rescue_filter (df : DataFrame) (filter_type : List Nat) :
    Except (List Nat) DataFrame :=
  let ft := canon filter_type
  if ft = pystr "water" then .ok (water_rescue_filter df)
  else if ft = pystr "mountain" ∨ ft = pystr "wilderness" then
    .ok (mountain_rescue_filter df)
  else if ft = pystr "disaster" ∨ ft = pystr "tracking" then
    .ok (disaster_rescue_filter df)
  else if ft = pystr "reset" ∨ ft = pystr "" then .ok (reset_filter df)
  else .error (invalidFilterMsg ft)

/-! ### Substring helper lemmas -/

theorem infixExtendLeft (a : List Nat) {x b : List Nat} (h : x <:+: b) :
    x <:+: a ++ b := by
  obtain ⟨s, t, hb⟩ := h
  exact ⟨a ++ s, t, by rw [← hb]; simp [List.append_assoc]⟩

theorem infixExtendRight (c : List Nat) {x b : List Nat} (h : x <:+: b) :
    x <:+: b ++ c := by
  obtain ⟨s, t, hb⟩ := h
  exact ⟨s, t ++ c, by rw [← hb]; simp [List.append_assoc]⟩

theorem containsB_of_infixFact {x b : List Nat} (h : x <:+: b) :
    containsB b x = true := (containsB_iff b x).mpr h

/-- The token `male` occurs in every string in which `female` occurs. -/
theorem male_of_female {s : List Nat} (h : containsB s (pystr "female") = true) :
    containsB s (pystr "male") = true := by
  rw [containsB_iff] at h ⊢
  have hmf : pystr "male" <:+: pystr "female" :=
    (containsB_iff (pystr "female") (pystr "male")).mp (by decide)
  exact List.IsInfix.trans hmf h

/-! ### Claim C4: sex and intact status are determined independently -/

/-- Modelled from the claim's wording for the sex component: `Unknown` on the
guard cases, else `Female` if the substring `female` occurs, else `Male` if
`male` occurs, else `Unknown`. -/
def spec_sex_of (v : Value) : List Nat :=
  match v with
  | .vStr s0 =>
    let s := canon s0
    if s.isEmpty || s = pystr "unknown" then pystr "Unknown"
    else if containsB s (pystr "female") then pystr "Female"
    else if containsB s (pystr "male") then pystr "Male"
    else pystr "Unknown"
  | _ => pystr "Unknown"

/-- Modelled from the claim's wording for the intact component: `Unknown` on
the guard cases, else the first of `Neutered`, `Spayed`, `Intact` whose
substring occurs, else `Unknown`. -/
def spec_intact_of (v : Value) : List Nat :=
  match v with
  | .vStr s0 =>
    let s := canon s0
    if s.isEmpty || s = pystr "unknown" then pystr "Unknown"
    else if containsB s (pystr "neutered") then pystr "Neutered"
    else if containsB s (pystr "spayed") then pystr "Spayed"
    else if containsB s (pystr "intact") then pystr "Intact"
    else pystr "Unknown"
  | _ => pystr "Unknown"

/-- Claim C4: `normalize_sex_intact` returns `(Unknown, Unknown)` on
null/non-string/empty/`unknown` input, and otherwise determines the two
components independently on the trimmed lower-cased string — the sex is
`Female` when `female` occurs, else `Male` when `male` occurs, else
`Unknown`, and the intact status is the first of `Neutered`, `Spayed`,
`Intact` whose substring occurs, else `Unknown`. -/
theorem claim_C4 (v : Value) :
    normalize_sex_intact v = (spec_sex_of v, spec_intact_of v) := by
  cases v with
  | vStr s0 =>
    show normalize_sex_intact (.vStr s0) = _
    unfold normalize_sex_intact spec_sex_of spec_intact_of
    simp only
    by_cases hg : ((canon s0).isEmpty || decide (canon s0 = pystr "unknown")) = true
    · simp only [hg, if_pos]
    · rw [Bool.not_eq_true] at hg
      simp only [hg, Bool.false_eq_true, if_false]
      cases hf : containsB (canon s0) (pystr "female") with
      | true =>
        have hm := male_of_female hf
        simp [hf, hm]
      | false =>
        cases hm : containsB (canon s0) (pystr "male") with
        | true => simp [hf, hm]
        | false => simp [hf, hm]
  | vNum q => rfl
  | vBool b => rfl
  | vNull => rfl

/-! ### Claim C10: the breed classifier canonicalizes its rescue-type argument -/

/-- The classifier only ever looks at the stripped lower-cased rescue type. -/
theorem breed_matches_canon (b : Value) (d : List Nat) :
    breed_matches_rescue_type b d = breed_matches_rescue_type b (canon d) := by
  cases b with
  | vStr b0 =>
    show breed_matches_rescue_type (.vStr b0) d = _
    unfold breed_matches_rescue_type
    simp only [canon_idem]
  | vNum q => rfl
  | vBool b => rfl
  | vNull => rfl

/-- Claim C10: `breed_matches_rescue_type` is invariant under surrounding
whitespace and letter case of the rescue-type argument (in particular
`"  WATER "` behaves as `"water"`), and every rescue type whose canonical
form is none of `water`, `mountain`, `disaster`, `tracking` yields `false`. -/
theorem claim_C10 :
    (∀ (b : Value) (d : List Nat),
      breed_matches_rescue_type b d = breed_matches_rescue_type b (canon d)) ∧
    (∀ b : Value,
      breed_matches_rescue_type b (pystr "  WATER ") =
        breed_matches_rescue_type b (pystr "water")) ∧
    (∀ (b : Value) (d : List Nat),
      canon d ∉ [pystr "water", pystr "mountain", pystr "disaster", pystr "tracking"] →
      breed_matches_rescue_type b d = false) := by
  refine ⟨breed_matches_canon, ?_, ?_⟩
  · intro b
    rw [breed_matches_canon b (pystr "  WATER ")]
    have : canon (pystr "  WATER ") = pystr "water" := by decide
    rw [this]
  · intro b d hmem
    simp only [List.mem_cons, List.not_mem_nil, or_false, not_or] at hmem
    obtain ⟨h1, h2, h3, h4⟩ := hmem
    cases b with
    | vStr b0 =>
      show breed_matches_rescue_type (.vStr b0) d = false
      unfold breed_matches_rescue_type
      simp only [h1, h2, h3, h4, if_false, or_self, ite_self, if_neg, not_false_iff]
    | vNum q => rfl
    | vBool b => rfl
    | vNull => rfl

/-! ### Claim C5: dispatcher canonicalization, aliases and error reporting -/

/-- The dispatcher only ever looks at the stripped lower-cased filter type. -/
theorem apply_filter_canon (df : DataFrame) (ft : List Nat) :
    apply_rescue_filter df ft = apply_rescue_filter df (canon ft) := by
  unfold apply_rescue_filter
  simp only [canon_idem]

theorem containsB_invalidMsg_self (ft : List Nat) :
    containsB (invalidFilterMsg ft) ft = true := by
  rw [containsB_iff]
  unfold invalidFilterMsg
  refine ⟨pystr "Invalid filter type: " ++ [39],
    [39] ++ pystr ". Valid options: water, mountain, disaster, tracking, reset", ?_⟩
  simp [List.append_assoc]

theorem containsB_invalidMsg_name (ft w : List Nat)
    (hw : containsB (pystr ". Valid options: water, mountain, disaster, tracking, reset") w
      = true) :
    containsB (invalidFilterMsg ft) w = true := by
  rw [containsB_iff]
  unfold invalidFilterMsg
  have hB := (containsB_iff _ _).mp hw
  exact infixExtendLeft _ hB

/-- Claim C5: `apply_rescue_filter` trims and lower-cases the filter name
before dispatch; the five names dispatch to their filters with `wilderness`
an alias of mountain, `tracking` an alias of disaster and the empty string an
alias of reset; every other name raises an error whose message names the
(canonicalized) offending value and all five valid names — in particular
`bogus` fails with a message containing both `water` and `mountain`. -/
theorem claim_C5 :
    (∀ (df : DataFrame) (ft : List Nat),
      apply_rescue_filter df ft = apply_rescue_filter df (canon ft)) ∧
    (∀ df : DataFrame,
      apply_rescue_filter df (pystr "water") = .ok (water_rescue_filter df) ∧
      apply_rescue_filter df (pystr "mountain") = .ok (mountain_rescue_filter df) ∧
      apply_rescue_filter df (pystr "wilderness") = .ok (mountain_rescue_filter df) ∧
      apply_rescue_filter df (pystr "disaster") = .ok (disaster_rescue_filter df) ∧
      apply_rescue_filter df (pystr "tracking") = .ok (disaster_rescue_filter df) ∧
      apply_rescue_filter df (pystr "reset") = .ok df ∧
      apply_rescue_filter df (pystr "") = .ok df) ∧
    (∀ (df : DataFrame) (ft : List Nat),
      canon ft ∉ [pystr "water", pystr "mountain", pystr "wilderness",
        pystr "disaster", pystr "tracking", pystr "reset", pystr ""] →
      apply_rescue_filter df ft = .error (invalidFilterMsg (canon ft)) ∧
      containsB (invalidFilterMsg (canon ft)) (canon ft) = true ∧
      ∀ w ∈ [pystr "water", pystr "mountain", pystr "disaster",
        pystr "tracking", pystr "reset"],
        containsB (invalidFilterMsg (canon ft)) w = true) ∧
    (∀ df : DataFrame,
      apply_rescue_filter df (pystr "bogus") = .error (invalidFilterMsg (pystr "bogus")) ∧
      containsB (invalidFilterMsg (pystr "bogus")) (pystr "water") = true ∧
      containsB (invalidFilterMsg (pystr "bogus")) (pystr "mountain") = true) := by
  refine ⟨apply_filter_canon, ?_, ?_, ?_⟩
  · intro df
    exact ⟨rfl, rfl, rfl, rfl, rfl, rfl, rfl⟩
  · intro df ft hmem
    simp only [List.mem_cons, List.not_mem_nil, or_false, not_or] at hmem
    obtain ⟨h1, h2, h3, h4, h5, h6, h7⟩ := hmem
    refine ⟨?_, containsB_invalidMsg_self _, ?_⟩
    · unfold apply_rescue_filter
      rw [if_neg h1, if_neg (not_or.mpr ⟨h2, h3⟩), if_neg (not_or.mpr ⟨h4, h5⟩),
        if_neg (not_or.mpr ⟨h6, h7⟩)]
    · intro w hw
      apply containsB_invalidMsg_name
      simp only [List.mem_cons, List.not_mem_nil, or_false] at hw
      rcases hw with h | h | h | h | h <;> rw [h] <;> decide
  · intro df
    exact ⟨rfl, by decide, by decide⟩

/-! ### Claim C6: missing required columns are all reported -/

theorem mem_joinCommaSpace {c : List Nat} :
    ∀ {L : List (List Nat)}, c ∈ L → c <:+: joinCommaSpace L := by
  intro L
  induction L with
  | nil => intro h; exact absurd h (List.not_mem_nil c)
  | cons x xs ih =>
    intro h
    cases xs with
    | nil =>
      rcases List.mem_cons.mp h with h1 | h1
      · subst h1
        exact List.infix_refl c
      · exact absurd h1 (List.not_mem_nil c)
    | cons y ys =>
      rcases List.mem_cons.mp h with h1 | h1
      · subst h1
        show c <:+: c ++ pystr ", " ++ joinCommaSpace (y :: ys)
        exact List.IsPrefix.isInfix
          ( List.IsPrefix.trans (List.prefix_append c (pystr ", ")) (List.prefix_append _ _))
      · show c <:+: x ++ pystr ", " ++ joinCommaSpace (y :: ys)
        exact infixExtendLeft _ (ih h1)

/-- A copy of the documented one-row batch with the `location_lat` column
removed, the concrete case the claim names. -/
def batchNoLat : DataFrame :=
  ⟨[pystr "animal_id", pystr "age_upon_outcome", pystr "sex_upon_outcome",
    pystr "location_long"],
   [[.vStr (pystr "A001"), .vStr (pystr "2 years"), .vStr (pystr "Neutered Male"),
     .vNum ⟨-977431, 10000⟩]]⟩

/-- Claim C6: a batch missing required columns fails with an error whose
message names all of the missing columns; in particular a batch lacking only
`location_lat` fails with an error naming `location_lat`. -/
theorem claim_C6 :
    (∀ df : DataFrame,
      required_columns.filter (fun c => !(df.cols.contains c)) ≠ [] →
      ∃ msg, normalize_dataframe df = .error msg ∧
        ∀ c ∈ required_columns.filter (fun c => !(df.cols.contains c)),
          containsB msg c = true) ∧
    (normalize_dataframe batchNoLat =
        .error (pystr "Missing required columns: location_lat") ∧
      containsB (pystr "Missing required columns: location_lat")
        (pystr "location_lat") = true) := by
  constructor
  · intro df hne
    refine ⟨pystr "Missing required columns: " ++
      joinCommaSpace (required_columns.filter (fun c => !(df.cols.contains c))), ?_, ?_⟩
    · unfold normalize_dataframe
      rw [if_neg (by simpa [List.isEmpty_iff] using hne)]
    · intro c hc
      rw [containsB_iff]
      exact infixExtendLeft _ (mem_joinCommaSpace hc)
  · exact ⟨by decide, by decide⟩

/-! ### Claim C1: end-to-end classification of the documented three-record batch -/

/-- The three-record batch of the end-to-end property: A001 a Labrador
Retriever Mix intact female of 104 weeks, A002 a German Shepherd intact male
of 150 weeks, A003 a Doberman Pinscher intact male of 208 weeks. -/
def batchC1 : DataFrame :=
  ⟨[pystr "animal_id", pystr "breed", pystr "age_upon_outcome",
    pystr "sex_upon_outcome", pystr "location_lat", pystr "location_long"],
   [[.vStr (pystr "A001"), .vStr (pystr "Labrador Retriever Mix"),
     .vStr (pystr "104 weeks"), .vStr (pystr "Intact Female"),
     .vNum ⟨302672, 10000⟩, .vNum ⟨-977431, 10000⟩],
    [.vStr (pystr "A002"), .vStr (pystr "German Shepherd"),
     .vStr (pystr "150 weeks"), .vStr (pystr "Intact Male"),
     .vNum ⟨302672, 10000⟩, .vNum ⟨-977431, 10000⟩],
    [.vStr (pystr "A003"), .vStr (pystr "Doberman Pinscher"),
     .vStr (pystr "208 weeks"), .vStr (pystr "Intact Male"),
     .vNum ⟨302672, 10000⟩, .vNum ⟨-977431, 10000⟩]]⟩

/-- The `animal_id` column of a filter result, `none` on a raised error. -/
def idsOf (e : Except (List Nat) DataFrame) : Option (List (List Nat)) :=
  match e with
  | .ok d => some (d.rows.map (fun r =>
      match getCell d r (pystr "animal_id") with
      | .vStr s => s
      | _ => []))
  | .error _ => none

/-- Claim C1: on the normalized three-record batch, the water filter keeps
exactly A001, the mountain filter exactly A002, the disaster filter exactly
A002 and A003, and reset keeps all three; and each discipline's row
predicate is the conjunction of its breed-set, sex, intact-status and
inclusive age-range clauses. -/
theorem claim_C1 :
    (∃ ndf, normalize_dataframe batchC1 = .ok ndf ∧
      idsOf (apply_rescue_filter ndf (pystr "water")) = some [pystr "A001"] ∧
      idsOf (apply_rescue_filter ndf (pystr "mountain")) = some [pystr "A002"] ∧
      idsOf (apply_rescue_filter ndf (pystr "disaster")) =
        some [pystr "A002", pystr "A003"] ∧
      idsOf (apply_rescue_filter ndf (pystr "reset")) =
        some [pystr "A001", pystr "A002", pystr "A003"]) ∧
    (∀ (df : DataFrame) (r : List Value),
      (r ∈ (water_rescue_filter df).rows ↔
        r ∈ df.rows ∧
        breed_matches_rescue_type (getCell df r (pystr "breed")) (pystr "water") = true ∧
        valEqStrB (getCell df r (pystr "sex")) (pystr "Female") = true ∧
        valEqStrB (getCell df r (pystr "intact_status")) (pystr "Intact") = true ∧
        valGeB (getCell df r (pystr "age_weeks")) ⟨26, 1⟩ = true ∧
        valLeB (getCell df r (pystr "age_weeks")) ⟨156, 1⟩ = true) ∧
      (r ∈ (mountain_rescue_filter df).rows ↔
        r ∈ df.rows ∧
        breed_matches_rescue_type (getCell df r (pystr "breed")) (pystr "mountain") = true ∧
        valEqStrB (getCell df r (pystr "sex")) (pystr "Male") = true ∧
        valEqStrB (getCell df r (pystr "intact_status")) (pystr "Intact") = true ∧
        valGeB (getCell df r (pystr "age_weeks")) ⟨26, 1⟩ = true ∧
        valLeB (getCell df r (pystr "age_weeks")) ⟨156, 1⟩ = true) ∧
      (r ∈ (disaster_rescue_filter df).rows ↔
        r ∈ df.rows ∧
        breed_matches_rescue_type (getCell df r (pystr "breed")) (pystr "disaster") = true ∧
        valEqStrB (getCell df r (pystr "sex")) (pystr "Male") = true ∧
        valEqStrB (getCell df r (pystr "intact_status")) (pystr "Intact") = true ∧
        valGeB (getCell df r (pystr "age_weeks")) ⟨20, 1⟩ = true ∧
        valLeB (getCell df r (pystr "age_weeks")) ⟨300, 1⟩ = true)) := by
  constructor
  · refine ⟨_, rfl, ?_, ?_, ?_, ?_⟩ <;> decide
  · intro df r
    refine ⟨?_, ?_, ?_⟩ <;>
      simp [water_rescue_filter, mountain_rescue_filter, disaster_rescue_filter,
        water_pred, mountain_pred, disaster_pred, List.mem_filter,
        Bool.and_eq_true, and_assoc]

/-! ### Claim C8: null ages never pass a non-reset filter -/

theorem getCell_congr_cols (df1 df2 : DataFrame) (r : List Value) (c : List Nat)
    (h : df1.cols = df2.cols) : getCell df1 r c = getCell df2 r c := by
  unfold getCell colIdx
  rw [h]

theorem age_num_of_valGeB {df : DataFrame} {r : List Value} {q : Frac}
    (h : valGeB (getCell df r (pystr "age_weeks")) q = true) :
    ∃ a, getCell df r (pystr "age_weeks") = .vNum a := by
  cases hc : getCell df r (pystr "age_weeks") with
  | vNum a => exact ⟨a, rfl⟩
  | vStr s => rw [hc] at h; exact absurd h (by simp [valGeB])
  | vBool b => rw [hc] at h; exact absurd h (by simp [valGeB])
  | vNull => rw [hc] at h; exact absurd h (by simp [valGeB])

/-- Claim C8: on a normalized batch, a row whose `age_weeks` is null (or any
non-number) never appears in the output of a non-reset discipline filter —
the age comparisons treat it as non-matching rather than failing. -/
theorem claim_C8 (raw ndf : DataFrame) (ft : List Nat) (out : DataFrame)
    (hnorm : normalize_dataframe raw = .ok ndf)
    (hft : canon ft ∈ [pystr "water", pystr "mountain", pystr "wilderness",
      pystr "disaster", pystr "tracking"])
    (happly : apply_rescue_filter ndf ft = .ok out) :
    ∀ r ∈ out.rows, ∃ a, getCell out r (pystr "age_weeks") = .vNum a := by
  intro r hr
  simp only [List.mem_cons, List.not_mem_nil, or_false] at hft
  unfold apply_rescue_filter at happly
  rcases hft with h | h | h | h | h <;> rw [h] at happly
  · rw [if_pos (by decide)] at happly
    simp only [Except.ok.injEq] at happly
    subst happly
    obtain ⟨-, hpred⟩ := List.mem_filter.mp hr
    simp only [water_pred, Bool.and_eq_true] at hpred
    obtain ⟨a, ha⟩ := age_num_of_valGeB hpred.1.2
    exact ⟨a, by rw [getCell_congr_cols (water_rescue_filter ndf) ndf r (pystr "age_weeks") rfl, ha]⟩
  · rw [if_neg (by decide), if_pos (by decide)] at happly
    simp only [Except.ok.injEq] at happly
    subst happly
    obtain ⟨-, hpred⟩ := List.mem_filter.mp hr
    simp only [mountain_pred, Bool.and_eq_true] at hpred
    obtain ⟨a, ha⟩ := age_num_of_valGeB hpred.1.2
    exact ⟨a, by rw [getCell_congr_cols (mountain_rescue_filter ndf) ndf r (pystr "age_weeks") rfl, ha]⟩
  · rw [if_neg (by decide), if_pos (by decide)] at happly
    simp only [Except.ok.injEq] at happly
    subst happly
    obtain ⟨-, hpred⟩ := List.mem_filter.mp hr
    simp only [mountain_pred, Bool.and_eq_true] at hpred
    obtain ⟨a, ha⟩ := age_num_of_valGeB hpred.1.2
    exact ⟨a, by rw [getCell_congr_cols (mountain_rescue_filter ndf) ndf r (pystr "age_weeks") rfl, ha]⟩
  · rw [if_neg (by decide), if_neg (by decide), if_pos (by decide)] at happly
    simp only [Except.ok.injEq] at happly
    subst happly
    obtain ⟨-, hpred⟩ := List.mem_filter.mp hr
    simp only [disaster_pred, Bool.and_eq_true] at hpred
    obtain ⟨a, ha⟩ := age_num_of_valGeB hpred.1.2
    exact ⟨a, by rw [getCell_congr_cols (disaster_rescue_filter ndf) ndf r (pystr "age_weeks") rfl, ha]⟩
  · rw [if_neg (by decide), if_neg (by decide), if_pos (by decide)] at happly
    simp only [Except.ok.injEq] at happly
    subst happly
    obtain ⟨-, hpred⟩ := List.mem_filter.mp hr
    simp only [disaster_pred, Bool.and_eq_true] at hpred
    obtain ⟨a, ha⟩ := age_num_of_valGeB hpred.1.2
    exact ⟨a, by rw [getCell_congr_cols (disaster_rescue_filter ndf) ndf r (pystr "age_weeks") rfl, ha]⟩

/-- Witness for C8 at the concrete documented batch, the water discipline,
and its one surviving row. -/
theorem claim_C8_witness :
    ∃ ndf out, normalize_dataframe batchC1 = .ok ndf ∧
      apply_rescue_filter ndf (pystr "water") = .ok out ∧
      ∀ r ∈ out.rows, ∃ a, getCell out r (pystr "age_weeks") = .vNum a := by
  refine ⟨_, _, rfl, rfl, ?_⟩
  exact claim_C8 batchC1 _ (pystr "water") _ rfl (by decide) rfl

/-! ### Claim C9: an empty batch normalizes to an empty batch with the four columns -/

theorem colIdx_eq_none_iff (df : DataFrame) (c : List Nat) :
    colIdx df c = none ↔ c ∉ df.cols := by
  unfold colIdx
  rw [List.findIdx?_eq_none_iff]
  constructor
  · intro h hc
    have := h c hc
    simp at this
  · intro h x hx
    by_cases hxc : x = c
    · subst hxc; exact absurd hx h
    · simp [hxc]

theorem mem_setCol_self (df : DataFrame) (c : List Nat) (vals : List Value) :
    c ∈ (setCol df c vals).cols := by
  unfold setCol
  cases h : colIdx df c with
  | some i =>
    by_contra hc
    have : colIdx df c = none := (colIdx_eq_none_iff df c).mpr (by simpa using hc)
    rw [h] at this
    exact Option.noConfusion this
  | none => simp

theorem mem_setCol_of_mem (df : DataFrame) (b c : List Nat) (vals : List Value)
    (hb : b ∈ df.cols) : b ∈ (setCol df c vals).cols := by
  unfold setCol
  cases colIdx df c with
  | some i => exact hb
  | none => exact List.mem_append_left _ hb

theorem setCol_rows_nil (df : DataFrame) (c : List Nat) (vals : List Value)
    (h : df.rows = []) : (setCol df c vals).rows = [] := by
  unfold setCol
  cases colIdx df c with
  | some i => simp [h]
  | none => simp [h]

/-- Claim C9: normalizing an empty batch that exposes the four required
columns succeeds and yields an empty batch whose schema contains the four
canonical columns `age_weeks`, `sex`, `intact_status`, `valid_coords`. -/
theorem claim_C9 (cols : List (List Nat))
    (hreq : ∀ c ∈ required_columns, c ∈ cols) :
    ∃ ndf, normalize_dataframe ⟨cols, []⟩ = .ok ndf ∧ ndf.rows = [] ∧
      ∀ c ∈ [pystr "age_weeks", pystr "sex", pystr "intact_status",
        pystr "valid_coords"], c ∈ ndf.cols := by
  unfold normalize_dataframe
  have hmiss : required_columns.filter (fun c => !(List.contains cols c)) = [] := by
    rw [List.filter_eq_nil_iff]
    intro c hc
    simp only [Bool.not_eq_true', Bool.not_eq_false]
    exact List.elem_eq_true_of_mem (hreq c hc)
  rw [if_pos (by rw [hmiss]; rfl)]
  refine ⟨_, rfl, ?_, ?_⟩
  · exact setCol_rows_nil _ _ _ (setCol_rows_nil _ _ _ (setCol_rows_nil _ _ _
      (setCol_rows_nil _ _ _ rfl)))
  · intro c hc
    simp only [List.mem_cons, List.not_mem_nil, or_false] at hc
    rcases hc with h | h | h | h <;> subst h
    · exact mem_setCol_of_mem _ _ _ _ (mem_setCol_of_mem _ _ _ _
        (mem_setCol_of_mem _ _ _ _ (mem_setCol_self _ _ _)))
    · exact mem_setCol_of_mem _ _ _ _ (mem_setCol_of_mem _ _ _ _ (mem_setCol_self _ _ _))
    · exact mem_setCol_of_mem _ _ _ _ (mem_setCol_self _ _ _)
    · exact mem_setCol_self _ _ _

/-- Witness for C9 at the minimal schema holding exactly the required columns. -/
theorem claim_C9_witness :
    ∃ ndf, normalize_dataframe ⟨required_columns, []⟩ = .ok ndf ∧ ndf.rows = [] ∧
      ∀ c ∈ [pystr "age_weeks", pystr "sex", pystr "intact_status",
        pystr "valid_coords"], c ∈ ndf.cols :=
  claim_C9 required_columns (fun c hc => hc)

/-! ### Claim C7: normalization is a non-destructive enrichment -/

/-- The four canonical columns the normalizer adds, in the order it adds them. -/
def canonical_columns : List (List Nat) :=
  [pystr "age_weeks", pystr "sex", pystr "intact_status", pystr "valid_coords"]

theorem zip_map_append (rows : List (List Value)) (f : List Value → Value) :
    (rows.zip (rows.map f)).map (fun p => p.1 ++ [p.2]) =
      rows.map (fun r => r ++ [f r]) := by
  induction rows with
  | nil => rfl
  | cons r t ih => simp only [List.map_cons, List.zip_cons_cons, ih]

theorem setCol_fresh (df : DataFrame) (c : List Nat) (f : List Value → Value)
    (hc : c ∉ df.cols) :
    setCol df c (df.rows.map f) =
      ⟨df.cols ++ [c], df.rows.map (fun r => r ++ [f r])⟩ := by
  unfold setCol
  rw [(colIdx_eq_none_iff df c).mpr hc]
  rw [zip_map_append]

theorem colIdx_some_of_mem (cols : List (List Nat)) (c : List Nat) (hc : c ∈ cols) :
    ∃ i, List.findIdx? (fun c2 => c2 == c) cols = some i := by
  cases h : List.findIdx? (fun c2 => c2 == c) cols with
  | some i => exact ⟨i, rfl⟩
  | none =>
    rw [List.findIdx?_eq_none_iff] at h
    have := h c hc
    simp at this

theorem getCell_snoc (df : DataFrame) (cNew : List Nat) (R : List (List Value))
    (r : List Value) (x : Value) (c : List Nat) (hc : c ∈ df.cols)
    (hlen : df.cols.length ≤ r.length) :
    getCell ⟨df.cols ++ [cNew], R⟩ (r ++ [x]) c = getCell df r c := by
  unfold getCell colIdx
  obtain ⟨i, hi⟩ := colIdx_some_of_mem df.cols c hc
  have hbound : i < df.cols.length :=
    (List.findIdx?_eq_some_iff_findIdx_eq.mp hi).1
  have happ : List.findIdx? (fun c2 => c2 == c) (df.cols ++ [cNew]) = some i := by
    rw [List.findIdx?_append, hi]
    rfl
  simp only [happ, hi]
  rw [List.get?_append (by omega)]

theorem getCell_snoc4 {cols : List (List Nat)} {c1 c2 c3 c4 : List Nat}
    {R : List (List Value)} {r : List Value} {x1 x2 x3 x4 : Value} {c : List Nat}
    (R0 : List (List Value)) (hc : c ∈ cols) (hlen : cols.length ≤ r.length) :
    getCell ⟨((cols ++ [c1]) ++ [c2]) ++ [c3] ++ [c4], R⟩
        ((((r ++ [x1]) ++ [x2]) ++ [x3]) ++ [x4]) c =
      getCell ⟨cols, R0⟩ r c := by
  rw [getCell_snoc ⟨((cols ++ [c1]) ++ [c2]) ++ [c3], R0⟩ c4 R _ x4 c
    (by simp [hc]) (by simp; omega)]
  rw [getCell_snoc ⟨(cols ++ [c1]) ++ [c2], R0⟩ c3 R0 _ x3 c
    (by simp [hc]) (by simp; omega)]
  rw [getCell_snoc ⟨cols ++ [c1], R0⟩ c2 R0 _ x2 c
    (by simp [hc]) (by simp; omega)]
  rw [getCell_snoc ⟨cols, R0⟩ c1 R0 r x1 c hc hlen]

/-- Claim C7: on a batch holding the required columns (rectangular, and with
none of the four canonical column names already present), normalization
succeeds and is a pure enrichment: the result keeps every original column
under its original name and in its original position, adds exactly the four
canonical columns on the right, keeps every row in order
(`len(normalize(batch)) == len(batch)`), and every original cell reads back
unchanged. Non-mutation of the input is the purely functional reading of the
source's `df.copy()`: the input value is untouched by construction. -/
theorem claim_C7 (df : DataFrame)
    (hreq : ∀ c ∈ required_columns, c ∈ df.cols)
    (hrect : ∀ r ∈ df.rows, r.length = df.cols.length)
    (hfresh : ∀ c ∈ canonical_columns, c ∉ df.cols) :
    ∃ ndf, normalize_dataframe df = .ok ndf ∧
      ndf.cols = df.cols ++ canonical_columns ∧
      ndf.rows.length = df.rows.length ∧
      ∀ i r nr, df.rows.get? i = some r → ndf.rows.get? i = some nr →
        ∀ c ∈ df.cols, getCell ndf nr c = getCell df r c := by
  have h1 : pystr "age_weeks" ∉ df.cols := hfresh _ (by simp [canonical_columns])
  have h2 : pystr "sex" ∉ df.cols := hfresh _ (by simp [canonical_columns])
  have h3 : pystr "intact_status" ∉ df.cols := hfresh _ (by simp [canonical_columns])
  have h4 : pystr "valid_coords" ∉ df.cols := hfresh _ (by simp [canonical_columns])
  have hmiss : required_columns.filter (fun c => !(df.cols.contains c)) = [] := by
    rw [List.filter_eq_nil_iff]
    intro c hc
    simp only [Bool.not_eq_true', Bool.not_eq_false]
    exact List.elem_eq_true_of_mem (hreq c hc)
  simp only [normalize_dataframe]
  rw [if_pos (by rw [hmiss]; rfl)]
  rw [setCol_fresh df _ _ h1]
  rw [setCol_fresh ⟨df.cols ++ [pystr "age_weeks"], _⟩ _ _
    (by simp only [List.mem_append, List.mem_singleton]
        rintro (h | h)
        · exact h2 h
        · exact absurd h (by decide))]
  rw [setCol_fresh ⟨(df.cols ++ [pystr "age_weeks"]) ++ [pystr "sex"], _⟩ _ _
    (by simp only [List.mem_append, List.mem_singleton]
        rintro ((h | h) | h)
        · exact h3 h
        · exact absurd h (by decide)
        · exact absurd h (by decide))]
  rw [setCol_fresh ⟨((df.cols ++ [pystr "age_weeks"]) ++ [pystr "sex"]) ++
      [pystr "intact_status"], _⟩ _ _
    (by simp only [List.mem_append, List.mem_singleton]
        rintro (((h | h) | h) | h)
        · exact h4 h
        · exact absurd h (by decide)
        · exact absurd h (by decide)
        · exact absurd h (by decide))]
  refine ⟨_, rfl, ?_, ?_, ?_⟩
  · simp [canonical_columns, List.append_assoc]
  · simp
  · intro i r nr hget hnget c hcmem
    simp only [List.map_map, List.get?_map, hget, Option.map_some'] at hnget
    have hrmem : r ∈ df.rows := List.get?_mem hget
    have hrlen : r.length = df.cols.length := hrect r hrmem
    have hnr := (Option.some.inj hnget).symm
    subst hnr
    simp only [Function.comp]
    rw [getCell_snoc4 ([] : List (List Value)) hcmem (le_of_eq hrlen.symm)]
    exact getCell_congr_cols ⟨df.cols, []⟩ df r c rfl

/-- Witness for C7 at the concrete documented three-record batch. -/
theorem claim_C7_witness :
    ∃ ndf, normalize_dataframe batchC1 = .ok ndf ∧
      ndf.cols = batchC1.cols ++ canonical_columns ∧
      ndf.rows.length = batchC1.rows.length ∧
      ∀ i r nr, batchC1.rows.get? i = some r → ndf.rows.get? i = some nr →
        ∀ c ∈ batchC1.cols, getCell ndf nr c = getCell batchC1 r c :=
  claim_C7 batchC1 (by decide) (by decide) (by decide)

/-! ### Claim C3: the category bucketer -/

theorem lexLeB_total (a : List Nat) : ∀ b, lexLeB a b = true ∨ lexLeB b a = true := by
  induction a with
  | nil => intro b; left; rfl
  | cons x xs ih =>
    intro b
    cases b with
    | nil => right; rfl
    | cons y ys =>
      by_cases h1 : x < y
      · left; simp [lexLeB, h1]
      · by_cases h2 : y < x
        · right; simp [lexLeB, h2]
        · have hxy : x = y := by omega
          subst hxy
          rcases ih ys with h | h
          · left; simp [lexLeB, h1, h]
          · right; simp [lexLeB, h1, h]

theorem lexLeB_trans : ∀ {a b c : List Nat},
    lexLeB a b = true → lexLeB b c = true → lexLeB a c = true := by
  intro a
  induction a with
  | nil => intro b c _ _; rfl
  | cons x xs ih =>
    intro b c hab hbc
    cases b with
    | nil => simp [lexLeB] at hab
    | cons y ys =>
      cases c with
      | nil => simp [lexLeB] at hbc
      | cons z zs =>
        simp only [lexLeB] at hab hbc ⊢
        by_cases h1 : x < y
        · have h2 : ¬ z < y := by
            by_contra h2
            have h3 : ¬ y < z := by omega
            simp [h2, h3] at hbc
          by_cases h4 : x < z
          · simp [h4]
          · have h5 : ¬ z < x := by omega
            have h6 : x = z := by omega
            omega
        · by_cases h2 : y < x
          · simp [h1, h2] at hab
          · have hxy : x = y := by omega
            subst hxy
            by_cases h3 : x < z
            · simp [h3]
            · by_cases h4 : z < x
              · simp [h3, h4] at hbc
              · simp [h1, h2] at hab
                simp [h3, h4] at hbc ⊢
                exact ih hab hbc

theorem rankLeB_iff (x y : List Nat × Nat) :
    rankLeB x y = true ↔ (y.2 < x.2 ∨ (x.2 = y.2 ∧ lexLeB x.1 y.1 = true)) := by
  unfold rankLeB
  split_ifs with ha hb
  · simp [ha]
  · constructor
    · intro h; exact absurd h (by simp)
    · rintro (h | ⟨he, _⟩)
      · omega
      · omega
  · have he : x.2 = y.2 := by omega
    simp [he, ha]

instance : IsTotal (List Nat × Nat) rankRel := by
  constructor
  intro a b
  unfold rankRel
  rw [rankLeB_iff, rankLeB_iff]
  rcases Nat.lt_trichotomy a.2 b.2 with h | h | h
  · right; left; exact h
  · rcases lexLeB_total a.1 b.1 with hl | hl
    · left; right; exact ⟨h, hl⟩
    · right; right; exact ⟨h.symm, hl⟩
  · left; left; exact h

instance : IsTrans (List Nat × Nat) rankRel := by
  constructor
  intro a b c hab hbc
  unfold rankRel at hab hbc ⊢
  rw [rankLeB_iff] at hab hbc ⊢
  rcases hab with h1 | ⟨h1, hl1⟩
  · rcases hbc with h2 | ⟨h2, _⟩
    · left; omega
    · left; omega
  · rcases hbc with h2 | ⟨h2, hl2⟩
    · left; omega
    · right; exact ⟨by omega, lexLeB_trans hl1 hl2⟩

theorem dictGet_cons {β : Type} (a : List Nat) (b : β) (t : List (List Nat × β))
    (k : List Nat) :
    dictGet ((a, b) :: t) k = if a = k then some b else dictGet t k := by
  unfold dictGet
  rw [List.find?_cons]
  by_cases h : a = k
  · simp [h]
  · have hb : (a == k) = false := beq_eq_false_iff_ne.mpr h
    simp [hb, h]

theorem dictGet_mapUpd {β : Type} (m : List (List Nat × β)) (k : List Nat)
    (g : β → β) (k2 : List Nat) :
    dictGet (m.map (fun p => if p.1 == k then (p.1, g p.2) else p)) k2 =
      if k2 = k then (dictGet m k).map g else dictGet m k2 := by
  induction m with
  | nil => by_cases h : k2 = k <;> simp [dictGet, h]
  | cons p t ih =>
    obtain ⟨a, b⟩ := p
    simp only [beq_iff_eq] at ih ⊢
    by_cases h2 : k2 = k
    · subst h2
      by_cases hp : a = k2
      · subst hp
        simp [dictGet_cons, ih]
      · simp [hp, dictGet_cons, ih]
    · have hk : ¬ k = k2 := fun h => h2 h.symm
      by_cases hp : a = k
      · subst hp
        simp [dictGet_cons, ih, h2, hk]
      · by_cases ha2 : a = k2 <;> simp [hp, ha2, dictGet_cons, ih, h2]

theorem any_key_iff {β : Type} (m : List (List Nat × β)) (k : List Nat) :
    m.any (fun p => p.1 == k) = true ↔ k ∈ dictKeys m := by
  simp [List.any_eq_true, dictKeys, List.mem_map, beq_iff_eq]

theorem dictGet_eq_none_of_not_mem {β : Type} (m : List (List Nat × β)) (k : List Nat)
    (h : k ∉ dictKeys m) : dictGet m k = none := by
  unfold dictGet
  rw [List.find?_eq_none.mpr]
  intro p hp
  simp only [beq_iff_eq]
  intro he
  exact h (show k ∈ dictKeys m from List.mem_map.mpr ⟨p, hp, he⟩)

theorem dictGet_isSome_of_mem {β : Type} (m : List (List Nat × β)) (k : List Nat)
    (h : k ∈ dictKeys m) : ∃ v, dictGet m k = some v := by
  induction m with
  | nil => simp [dictKeys] at h
  | cons p t ih =>
    obtain ⟨a, b⟩ := p
    rw [dictGet_cons]
    by_cases ha : a = k
    · exact ⟨b, by simp [ha]⟩
    · simp only [dictKeys, List.map_cons, List.mem_cons] at h
      rcases h with h | h
      · exact absurd h.symm ha
      · simpa [ha] using ih h

theorem dictGet_append_single {β : Type} (m : List (List Nat × β)) (k : List Nat)
    (init : β) (k2 : List Nat) :
    dictGet (m ++ [(k, init)]) k2 =
      match dictGet m k2 with
      | some v => some v
      | none => if k = k2 then some init else none := by
  induction m with
  | nil => by_cases h : k = k2 <;> simp [dictGet_cons, dictGet, h]
  | cons p t ih =>
    obtain ⟨a, b⟩ := p
    rw [List.cons_append, dictGet_cons, dictGet_cons]
    by_cases ha : a = k2
    · simp [ha]
    · simp [ha, ih]

theorem dictGet_upsert {β : Type} (m : List (List Nat × β)) (k : List Nat)
    (g : β → β) (init : β) (k2 : List Nat) :
    dictGet (dictUpsert m k g init) k2 =
      if k2 = k then
        (match dictGet m k with
          | some v => some (g v)
          | none => some init)
      else dictGet m k2 := by
  unfold dictUpsert
  split
  · next ha =>
    rw [dictGet_mapUpd]
    by_cases h2 : k2 = k
    · obtain ⟨v, hv⟩ := dictGet_isSome_of_mem m k ((any_key_iff m k).mp ha)
      simp [h2, hv]
    · simp [h2]
  · next ha =>
    have hnm : k ∉ dictKeys m := fun hc => ha ((any_key_iff m k).mpr hc)
    have hnone : dictGet m k = none := dictGet_eq_none_of_not_mem m k hnm
    rw [dictGet_append_single]
    by_cases h2 : k2 = k
    · subst h2
      rw [hnone]
    · have hk : ¬ k = k2 := fun h => h2 h.symm
      simp only [h2, if_false]
      cases dictGet m k2 <;> simp [hk]

theorem dictKeys_upsert {β : Type} (m : List (List Nat × β)) (k : List Nat)
    (g : β → β) (init : β) :
    dictKeys (dictUpsert m k g init) =
      if k ∈ dictKeys m then dictKeys m else dictKeys m ++ [k] := by
  unfold dictUpsert
  split
  · next ha =>
    rw [if_pos ((any_key_iff m k).mp ha)]
    unfold dictKeys
    rw [List.map_map]
    apply List.map_congr_left
    intro p _
    by_cases hp : p.1 = k <;> simp [hp]
  · next ha =>
    rw [if_neg (fun hc => ha ((any_key_iff m k).mpr hc))]
    simp [dictKeys]

theorem foldl_upsert_keys_mem {β : Type} (g : List Nat → β → β) (ini : List Nat → β) :
    ∀ (vs : List (List Nat)) (m : List (List Nat × β)) (k : List Nat),
      (k ∈ dictKeys (vs.foldl (fun m v => dictUpsert m v (g v) (ini v)) m) ↔
        k ∈ dictKeys m ∨ k ∈ vs) := by
  intro vs
  induction vs with
  | nil => intro m k; simp
  | cons v t ih =>
    intro m k
    rw [List.foldl_cons, ih]
    rw [dictKeys_upsert]
    split
    · next ha =>
      simp only [List.mem_cons]
      constructor
      · rintro (h | h)
        · exact Or.inl h
        · exact Or.inr (Or.inr h)
      · rintro (h | h | h)
        · exact Or.inl h
        · subst h
          exact Or.inl ha
        · exact Or.inr h
    · next ha =>
      simp only [List.mem_append, List.mem_cons, List.not_mem_nil, or_false]
      constructor
      · rintro ((h | h) | h)
        · exact Or.inl h
        · exact Or.inr (Or.inl h)
        · exact Or.inr (Or.inr h)
      · rintro (h | h | h)
        · exact Or.inl (Or.inl h)
        · exact Or.inl (Or.inr h)
        · exact Or.inr h

theorem foldl_upsert_keys_nodup {β : Type} (g : List Nat → β → β) (ini : List Nat → β) :
    ∀ (vs : List (List Nat)) (m : List (List Nat × β)),
      (dictKeys m).Nodup →
      (dictKeys (vs.foldl (fun m v => dictUpsert m v (g v) (ini v)) m)).Nodup := by
  intro vs
  induction vs with
  | nil => intro m h; simpa using h
  | cons v t ih =>
    intro m h
    rw [List.foldl_cons]
    apply ih
    rw [dictKeys_upsert]
    split
    · exact h
    · next ha => simp [List.nodup_append, h, ha]

theorem foldl_upsert_get_map (bv : List Nat → List Nat) :
    ∀ (vs : List (List Nat)) (m : List (List Nat × List Nat)) (k : List Nat),
      dictGet (vs.foldl (fun m v => dictUpsert m v (fun _ => bv v) (bv v)) m) k =
        if k ∈ vs then some (bv k) else dictGet m k := by
  intro vs
  induction vs with
  | nil => intro m k; simp
  | cons v t ih =>
    intro m k
    rw [List.foldl_cons, ih]
    by_cases hk : k ∈ t
    · simp [hk, List.mem_cons]
    · rw [dictGet_upsert]
      by_cases hv : k = v
      · subst hv
        simp only [hk, if_false, List.mem_cons, true_or, if_pos rfl, if_true]
        cases dictGet m k <;> simp
      · simp [hk, hv, List.mem_cons]

theorem counter_get :
    ∀ (vs : List (List Nat)) (m : List (List Nat × Nat)) (k : List Nat),
      dictGet (vs.foldl (fun m v => dictUpsert m v (· + 1) 1) m) k =
        match dictGet m k with
        | some c => some (c + vs.count k)
        | none => if k ∈ vs then some (vs.count k) else none := by
  intro vs
  induction vs with
  | nil =>
    intro m k
    cases hm : dictGet m k <;> simp [hm]
  | cons v t ih =>
    intro m k
    rw [List.foldl_cons, ih, dictGet_upsert]
    by_cases hv : k = v
    · subst hv
      rw [if_pos rfl]
      cases hm : dictGet m k with
      | some c =>
        simp only [List.count_cons, beq_self_eq_true, if_true, List.mem_cons, true_or]
        have : c + 1 + t.count k = c + (t.count k + 1) := by omega
        simp [this]
      | none =>
        simp only [List.count_cons, beq_self_eq_true, if_true, List.mem_cons, true_or]
        have : 1 + t.count k = t.count k + 1 := by omega
        simp [this]
    · rw [if_neg hv]
      have hcnt : (v :: t).count k = t.count k := by
        rw [List.count_cons]
        simp [show ¬ v = k from fun h => hv h.symm]
      rw [hcnt]
      cases dictGet m k with
      | some c => simp
      | none =>
        simp only [List.mem_cons]
        by_cases hk : k ∈ t
        · simp [hk]
        · simp [hk, hv]

theorem counterOf_get (values : List (List Nat)) (k : List Nat) :
    dictGet (counterOf values) k =
      if k ∈ values then some (values.count k) else none := by
  unfold counterOf
  rw [counter_get]
  rfl

theorem counterOf_keys_mem (values : List (List Nat)) (k : List Nat) :
    k ∈ dictKeys (counterOf values) ↔ k ∈ values :=
  (foldl_upsert_keys_mem (fun _ => (· + 1)) (fun _ => 1) values [] k).trans
    (by simp [dictKeys])

theorem counterOf_keys_nodup (values : List (List Nat)) :
    (dictKeys (counterOf values)).Nodup :=
  foldl_upsert_keys_nodup (fun _ => (· + 1)) (fun _ => 1) values [] (by simp [dictKeys])

theorem mem_of_dictGet {β : Type} :
    ∀ (m : List (List Nat × β)) (k : List Nat) (v : β),
      dictGet m k = some v → (k, v) ∈ m := by
  intro m
  induction m with
  | nil => intro k v h; simp [dictGet] at h
  | cons p t ih =>
    intro k v h
    obtain ⟨a, b⟩ := p
    rw [dictGet_cons] at h
    by_cases ha : a = k
    · rw [if_pos ha] at h
      have hb : b = v := Option.some.inj h
      subst hb
      subst ha
      exact List.mem_cons_self _ _
    · rw [if_neg ha] at h
      exact List.mem_cons_of_mem _ (ih k v h)

theorem dictGet_of_mem_nodup {β : Type} :
    ∀ (m : List (List Nat × β)) (p : List Nat × β),
      (dictKeys m).Nodup → p ∈ m → dictGet m p.1 = some p.2 := by
  intro m
  induction m with
  | nil => intro p _ hp; exact absurd hp (List.not_mem_nil p)
  | cons q t ih =>
    intro p hnd hp
    obtain ⟨a, b⟩ := q
    have hnd' : (dictKeys t).Nodup ∧ a ∉ dictKeys t := by
      simp only [dictKeys, List.map_cons, List.nodup_cons] at hnd
      exact ⟨hnd.2, hnd.1⟩
    rcases List.mem_cons.mp hp with h | h
    · subst h
      rw [dictGet_cons, if_pos rfl]
    · have hne : a ≠ p.1 := by
        intro he
        apply hnd'.2
        rw [he]
        exact List.mem_map.mpr ⟨p, h, rfl⟩
      rw [dictGet_cons, if_neg hne]
      exact ih p hnd'.1 h

theorem counterOf_mem (values : List (List Nat)) (p : List Nat × Nat) :
    p ∈ counterOf values ↔ p.1 ∈ values ∧ p.2 = values.count p.1 := by
  constructor
  · intro hp
    have hg := dictGet_of_mem_nodup _ p (counterOf_keys_nodup values) hp
    rw [counterOf_get] at hg
    by_cases hv : p.1 ∈ values
    · rw [if_pos hv] at hg
      exact ⟨hv, (Option.some.inj hg).symm⟩
    · rw [if_neg hv] at hg
      exact absurd hg (by simp)
  · rintro ⟨hv, hc⟩
    have hg : dictGet (counterOf values) p.1 = some (values.count p.1) := by
      rw [counterOf_get, if_pos hv]
    have hm := mem_of_dictGet _ _ _ hg
    obtain ⟨k, c⟩ := p
    simp only at hc
    subst hc
    exact hm

/-- Claim C3: `bucket_categories` returns the empty mapping on an empty
input or a nonpositive `top_n`; otherwise it ranks the distinct values by
descending count with ties broken by ascending lexicographic order, maps the
first `top_n` ranked values to themselves and every other distinct input
value to `"Other"`, and its key set is exactly the distinct input values —
with the documented `Dog/Cat/Bird` example. -/
theorem claim_C3 :
    (∀ top_n : Int, bucket_categories [] top_n = []) ∧
    (∀ (values : List (List Nat)) (top_n : Int), top_n ≤ 0 →
      bucket_categories values top_n = []) ∧
    (∀ (values : List (List Nat)) (top_n : Int),
      ¬ values.isEmpty → 0 < top_n →
      ∃ ranked : List (List Nat × Nat),
        ranked.Perm (counterOf values) ∧
        (∀ p : List Nat × Nat, p ∈ ranked ↔ p.1 ∈ values ∧ p.2 = values.count p.1) ∧
        List.Sorted rankRel ranked ∧
        (dictKeys (bucket_categories values top_n)).Nodup ∧
        (∀ k, k ∈ dictKeys (bucket_categories values top_n) ↔ k ∈ values) ∧
        (∀ k, dictGet (bucket_categories values top_n) k =
          if k ∈ values then
            some (if k ∈ (ranked.take top_n.toNat).map Prod.fst then k
              else pystr "Other")
          else none)) ∧
    (dictGet (bucket_categories [pystr "Dog", pystr "Cat", pystr "Bird"] 2)
        (pystr "Bird") = some (pystr "Bird") ∧
      dictGet (bucket_categories [pystr "Dog", pystr "Cat", pystr "Bird"] 2)
        (pystr "Cat") = some (pystr "Cat") ∧
      dictGet (bucket_categories [pystr "Dog", pystr "Cat", pystr "Bird"] 2)
        (pystr "Dog") = some (pystr "Other") ∧
      dictKeys (bucket_categories [pystr "Dog", pystr "Cat", pystr "Bird"] 2) =
        [pystr "Dog", pystr "Cat", pystr "Bird"]) := by
  refine ⟨?_, ?_, ?_, by decide, by decide, by decide, by decide⟩
  · intro top_n
    rfl
  · intro values top_n h
    unfold bucket_categories
    rw [if_pos (Or.inr h)]
  · intro values top_n hne hpos
    have hcond : ¬ (values.isEmpty = true ∨ top_n ≤ 0) := by
      rintro (h | h)
      · exact hne h
      · omega
    have hb : bucket_categories values top_n =
        values.foldl
          (fun m v => dictUpsert m v
            (fun _ =>
              if v ∈ ((List.insertionSort rankRel (counterOf values)).take
                  top_n.toNat).map Prod.fst then v
              else pystr "Other")
            (if v ∈ ((List.insertionSort rankRel (counterOf values)).take
                top_n.toNat).map Prod.fst then v
            else pystr "Other"))
          [] := by
      unfold bucket_categories
      rw [if_neg hcond]
    refine ⟨List.insertionSort rankRel (counterOf values),
      List.perm_insertionSort rankRel (counterOf values), ?_, ?_, ?_, ?_, ?_⟩
    · intro p
      rw [(List.perm_insertionSort rankRel (counterOf values)).mem_iff]
      exact counterOf_mem values p
    · exact List.sorted_insertionSort rankRel (counterOf values)
    · rw [hb]
      exact foldl_upsert_keys_nodup _ _ values [] (by simp [dictKeys])
    · intro k
      rw [hb]
      exact (foldl_upsert_keys_mem _ _ values [] k).trans (by simp [dictKeys])
    · intro k
      rw [hb]
      have := foldl_upsert_get_map
        (fun v =>
          if v ∈ ((List.insertionSort rankRel (counterOf values)).take
              top_n.toNat).map Prod.fst then v
          else pystr "Other") values [] k
      rw [this]
      by_cases hk : k ∈ values
      · rw [if_pos hk, if_pos hk]
      · rw [if_neg hk, if_neg hk]
        rfl

/-! ### Claim C2: the age parser -/

/-- Modelled from the claim's literal wording of the age pattern: the whole
trimmed lower-cased string must be number, whitespace (at least one
character), unit word, optional plural `s`, and nothing else. The source's
regex instead uses `\s*` (optional whitespace) and `re.match` (a prefix
match), which is what the counterexample below exhibits. -/
def unitExact (s : List Nat) : Option AgeUnit :=
  if s = pystr "year" ∨ s = pystr "years" then some .year
  else if s = pystr "month" ∨ s = pystr "months" then some .month
  else if s = pystr "week" ∨ s = pystr "weeks" then some .week
  else if s = pystr "day" ∨ s = pystr "days" then some .day
  else none

/-- Modelled from the claim's literal wording (see `unitExact`): a full
match of `<number><whitespace><unit>[s]` with mandatory whitespace. -/
def specAgeMatchStrict (s : List Nat) : Option (Frac × AgeUnit) :=
  let ds := s.takeWhile isDigit
  let rest := s.drop ds.length
  if ds.isEmpty then none
  else
    let valRest : Frac × List Nat :=
      match rest with
      | 46 :: r =>
        let fs := r.takeWhile isDigit
        if fs.isEmpty then (⟨(digitsVal ds : Int), 1⟩, rest)
        else (⟨(digitsVal (ds ++ fs) : Int), 10 ^ fs.length⟩, r.drop fs.length)
      | _ => (⟨(digitsVal ds : Int), 1⟩, rest)
    let ws := valRest.2.takeWhile pySpace
    if ws.isEmpty then none
    else
      match unitExact (valRest.2.drop ws.length) with
      | none => none
      | some u => some (valRest.1, u)

/-- Counterexample to C2 as literally stated: the source's regex accepts
`"2years"` (no whitespace) and `"2 weeksx"` (trailing text) because the
whitespace is optional and the match is a prefix match, while the claim's
pattern `<number><whitespace><unit>[s]` rejects both, predicting null. -/
theorem claim_C2_counterexample :
    specAgeMatchStrict (canon (pystr "2years")) = none ∧
    parse_age_to_weeks (.vStr (pystr "2years")) = some ⟨104286, 1000⟩ ∧
    specAgeMatchStrict (canon (pystr "2 weeksx")) = none ∧
    parse_age_to_weeks (.vStr (pystr "2 weeksx")) = some ⟨2, 1⟩ := by
  refine ⟨by decide, by decide, by decide, by decide⟩

theorem fracLeB_zero_iff (a : Frac) : fracLeB a ⟨0, 1⟩ = true ↔ a.num ≤ 0 := by
  simp [fracLeB]

/-- The conversion applied to a matched value, by unit: multiply by the
fixed constant (52.143 weeks per year, 4.345 per month, 1 per week), divide
by 7 for days. -/
def unitResult (val : Frac) : AgeUnit → Frac
  | .year => fracMul val ⟨52143, 1000⟩
  | .month => fracMul val ⟨4345, 1000⟩
  | .week => val
  | .day => ⟨val.num, val.den * 7⟩

/-- Prefix/whitespace-corrected behaviour on a successful match with a
positive value: the parser converts by the unit's fixed constant. -/
theorem parse_of_match (s : List Nat) (val : Frac) (u : AgeUnit)
    (hpos : 0 < val.num)
    (hm : ageRegexMatch (canon s) = some (val, u)) :
    parse_age_to_weeks (.vStr s) = some (unitResult val u) := by
  have hne : canon s ≠ [] := by
    intro h
    have hnone : ageRegexMatch ([] : List Nat) = none := by decide
    rw [h, hnone] at hm
    exact Option.noConfusion hm
  simp only [parse_age_to_weeks]
  rw [if_neg (by simp [List.isEmpty_iff, hne])]
  rw [hm]
  have hle : fracLeB val ⟨0, 1⟩ = false := by
    simp [fracLeB]
    omega
  cases u <;> simp [hle, unitResult]

theorem pySpace_of_digit {c : Nat} (h : isDigit c = true) : pySpace c = false := by
  simp only [isDigit, Bool.and_eq_true, decide_eq_true_eq] at h
  simp only [pySpace, Bool.or_eq_false_iff, beq_eq_false_iff_ne, ne_eq]
  omega

theorem pyLowerChar_of_digit {c : Nat} (h : isDigit c = true) : pyLowerChar c = c := by
  simp only [isDigit, Bool.and_eq_true, decide_eq_true_eq] at h
  unfold pyLowerChar
  rw [if_neg (by omega)]

theorem canon_digits_suffix (ds w : List Nat) (hne : ds ≠ [])
    (hdig : ∀ c ∈ ds, isDigit c = true)
    (hw : pyLower w = w) (hwlast : ∀ h, w.getLast? = some h → pySpace h = false)
    (hwne : w ≠ []) :
    canon (ds ++ w) = ds ++ w := by
  have hclean : CleanStr (ds ++ w) := by
    constructor
    · intro h hh
      rw [List.head?_append] at hh
      cases ds with
      | nil => exact absurd rfl hne
      | cons a t =>
        rw [List.head?_cons, Option.or_some] at hh
        have ha : h = a := (Option.some.inj hh).symm
        subst ha
        exact pySpace_of_digit (hdig h (List.mem_cons_self h t))
    · intro h hh
      rw [List.getLast?_append] at hh
      obtain ⟨x, hwl⟩ : ∃ x, w.getLast? = some x := by
        cases hwl : w.getLast? with
        | some x => exact ⟨x, rfl⟩
        | none => exact absurd (List.getLast?_eq_none_iff.mp hwl) hwne
      rw [hwl, Option.or_some] at hh
      have hx : h = x := (Option.some.inj hh).symm
      subst hx
      exact hwlast h hwl
  have hlower : pyLower (ds ++ w) = ds ++ w := by
    unfold pyLower
    rw [List.map_append]
    have h1 : ds.map pyLowerChar = ds := by
      conv_rhs => rw [← List.map_id ds]
      exact List.map_congr_left fun c hc => pyLowerChar_of_digit (hdig c hc)
    rw [h1]
    have h2 : w.map pyLowerChar = w := hw
    rw [h2]
  unfold canon
  rw [clean_pyStrip_eq _ hclean, hlower]

theorem ageRegexMatch_digits (ds w0 : List Nat) (u : AgeUnit) (hne : ds ≠ [])
    (hdig : ∀ c ∈ ds, isDigit c = true)
    (hu : unitAlt (List.dropWhile pySpace (32 :: w0)) = some u) :
    ageRegexMatch (ds ++ (32 :: w0)) = some (⟨(digitsVal ds : Int), 1⟩, u) := by
  have hts : List.takeWhile isDigit ds = ds := List.takeWhile_eq_self_iff.mpr hdig
  have htake : List.takeWhile isDigit (ds ++ (32 :: w0)) = ds := by
    rw [List.takeWhile_append, hts, if_pos rfl]
    rw [show List.takeWhile isDigit (32 :: w0) = [] from by
      simp [List.takeWhile_cons, isDigit]]
    exact List.append_nil ds
  simp only [ageRegexMatch]
  rw [htake, List.drop_left]
  rw [if_neg (by simp [List.isEmpty_iff, hne])]
  show (match unitAlt (List.dropWhile pySpace (32 :: w0)) with
    | none => none
    | some u2 => some ((⟨(digitsVal ds : Int), 1⟩ : Frac), u2)) =
      some (⟨(digitsVal ds : Int), 1⟩, u)
  rw [hu]

/-- Claim C2 (amended to the source's prefix match with optional
whitespace): the parser returns null for every non-string cell; for a string
it returns null exactly when the regex finds no match at the start of the
trimmed lower-cased form or the parsed number is nonpositive, and otherwise
multiplies the parsed number by the exact unit constant — 52.143 weeks per
year, 4.345 per month, 1 per week, 1/7 per day — exactly (hence to any
number of decimal places), and being a total function it never raises. The
last conjunct instantiates this on every digit string: `"<n> years"` parses
to `n * 52.143`, and analogously for the other units. -/
theorem claim_C2 :
    (∀ v : Value, (∀ s, v ≠ .vStr s) → parse_age_to_weeks v = none) ∧
    (∀ s : List Nat,
      parse_age_to_weeks (.vStr s) = none ↔
        ageRegexMatch (canon s) = none ∨
        ∃ val u, ageRegexMatch (canon s) = some (val, u) ∧ val.num ≤ 0) ∧
    (∀ (s : List Nat) (val : Frac) (u : AgeUnit), 0 < val.num →
      ageRegexMatch (canon s) = some (val, u) →
      parse_age_to_weeks (.vStr s) = some (unitResult val u)) ∧
    (∀ ds : List Nat, ds ≠ [] → (∀ c ∈ ds, isDigit c = true) → 0 < digitsVal ds →
      parse_age_to_weeks (.vStr (ds ++ pystr " years")) =
        some ⟨(digitsVal ds : Int) * 52143, 1000⟩ ∧
      parse_age_to_weeks (.vStr (ds ++ pystr " months")) =
        some ⟨(digitsVal ds : Int) * 4345, 1000⟩ ∧
      parse_age_to_weeks (.vStr (ds ++ pystr " weeks")) =
        some ⟨(digitsVal ds : Int), 1⟩ ∧
      parse_age_to_weeks (.vStr (ds ++ pystr " days")) =
        some ⟨(digitsVal ds : Int), 7⟩) := by
  refine ⟨?_, ?_, fun s val u hpos hm => parse_of_match s val u hpos hm, ?_⟩
  · intro v h
    cases v with
    | vStr s => exact absurd rfl (h s)
    | vNum q => rfl
    | vBool b => rfl
    | vNull => rfl
  · intro s
    by_cases he : canon s = []
    · have h1 : parse_age_to_weeks (.vStr s) = none := by
        simp only [parse_age_to_weeks]
        rw [if_pos (by simp [he])]
      have h2 : ageRegexMatch (canon s) = none := by
        rw [he]
        decide
      simp [h1, h2]
    · simp only [parse_age_to_weeks]
      rw [if_neg (by simp [List.isEmpty_iff, he])]
      cases hm : ageRegexMatch (canon s) with
      | none => simp
      | some p =>
        obtain ⟨val, u⟩ := p
        show (if fracLeB val ⟨0, 1⟩ = true then none
            else match u with
              | AgeUnit.year => some (fracMul val ⟨52143, 1000⟩)
              | AgeUnit.month => some (fracMul val ⟨4345, 1000⟩)
              | AgeUnit.week => some val
              | AgeUnit.day => some ⟨val.num, val.den * 7⟩) = none ↔ _
        by_cases hle : val.num ≤ 0
        · have hb : fracLeB val ⟨0, 1⟩ = true := by
            simp [fracLeB]
            omega
          rw [if_pos hb]
          simp only [true_iff]
          exact Or.inr ⟨val, u, rfl, hle⟩
        · have hb : fracLeB val ⟨0, 1⟩ = false := by
            simp [fracLeB]
            omega
          rw [if_neg (by simp [hb])]
          constructor
          · intro hc
            cases u <;> simp at hc
          · rintro (hc | ⟨val2, u2, hc, hle2⟩)
            · exact Option.noConfusion hc
            · have h12 := Option.some.inj hc
              have h1 : val = val2 := congrArg Prod.fst h12
              subst h1
              exact absurd hle2 hle
  · intro ds hne hdig hpos
    have hposI : 0 < ((digitsVal ds : Int)) := by exact_mod_cast hpos
    refine ⟨?_, ?_, ?_, ?_⟩
    · have hc := canon_digits_suffix ds (pystr " years") hne hdig
        (by decide) (by decide) (by decide)
      have hm : ageRegexMatch (canon (ds ++ pystr " years")) =
          some (⟨(digitsVal ds : Int), 1⟩, .year) := by
        rw [hc]
        exact ageRegexMatch_digits ds (pystr "years") .year hne hdig (by decide)
      rw [parse_of_match _ _ _ hposI hm]
      simp [unitResult, fracMul]
    · have hc := canon_digits_suffix ds (pystr " months") hne hdig
        (by decide) (by decide) (by decide)
      have hm : ageRegexMatch (canon (ds ++ pystr " months")) =
          some (⟨(digitsVal ds : Int), 1⟩, .month) := by
        rw [hc]
        exact ageRegexMatch_digits ds (pystr "months") .month hne hdig (by decide)
      rw [parse_of_match _ _ _ hposI hm]
      simp [unitResult, fracMul]
    · have hc := canon_digits_suffix ds (pystr " weeks") hne hdig
        (by decide) (by decide) (by decide)
      have hm : ageRegexMatch (canon (ds ++ pystr " weeks")) =
          some (⟨(digitsVal ds : Int), 1⟩, .week) := by
        rw [hc]
        exact ageRegexMatch_digits ds (pystr "weeks") .week hne hdig (by decide)
      rw [parse_of_match _ _ _ hposI hm]
      rfl
    · have hc := canon_digits_suffix ds (pystr " days") hne hdig
        (by decide) (by decide) (by decide)
      have hm : ageRegexMatch (canon (ds ++ pystr " days")) =
          some (⟨(digitsVal ds : Int), 1⟩, .day) := by
        rw [hc]
        exact ageRegexMatch_digits ds (pystr "days") .day hne hdig (by decide)
      rw [parse_of_match _ _ _ hposI hm]
      simp [unitResult]
